import Mathlib

/-!
Verification development for the DeepSeek-OCR Gradio application
(`gradio_app/modules/`): the OCR markup parser and renderer
(`result_processor.py`), the resolution policy (`image_processor.py`)
and the inference orchestration (`ocr_engine.py`).

Strings are modelled as `List Char` (`Str`), matching Python `str`
semantics character by character.  Rational numbers stand in for Python
floats: coordinate values are divisions by 999 and order comparisons
against 0 and 1, which agree between `ℚ` and IEEE doubles on the ranges
involved, and a decimal float literal is modelled by the exact rational
it denotes (no theorem depends on IEEE rounding of such a literal).
The source feeds coordinate text to `eval`; this development models
`eval` only on a literal fragment and never treats an input outside
that fragment as evidence of anything — see `pyEvalLiteral`.
-/

abbrev Str := List Char

/-- The literal `<|ref|>` opening tag of `ResultProcessor.PATTERN`. -/
def refOpen : Str := ['<', '|', 'r', 'e', 'f', '|', '>']

/-- The literal `<|det|>` opening tag (used by the `has_grounding` check). -/
def detOpen : Str := ['<', '|', 'd', 'e', 't', '|', '>']

/-- The literal middle part `<|/ref|><|det|>` of `ResultProcessor.PATTERN`:
the regex requires the closing ref tag to be immediately followed by the
opening det tag. -/
def refCloseDet : Str :=
  ['<', '|', '/', 'r', 'e', 'f', '|', '>', '<', '|', 'd', 'e', 't', '|', '>']

/-- The literal `<|/det|>` closing tag of `ResultProcessor.PATTERN`. -/
def detClose : Str := ['<', '|', '/', 'd', 'e', 't', '|', '>']

/-- The literal standalone `<|grounding|>` tag removed by
`ResultProcessor.clean_markdown`. -/
def groundingTag : Str :=
  ['<', '|', 'g', 'r', 'o', 'u', 'n', 'd', 'i', 'n', 'g', '|', '>']

/-- A full well-formed span `<|ref|>LABEL<|/ref|><|det|>COORDS<|/det|>`
as produced by the model's markup wire format. -/
def mkSpan (label coords : Str) : Str :=
  refOpen ++ label ++ refCloseDet ++ coords ++ detClose

/-- Lazy (shortest-match) search for the det closing tag, modelling the
second `(.*?)` of `ResultProcessor.PATTERN` followed by `<\|/det\|>`:
the capture may not contain a newline (`.` without `re.DOTALL`), and the
first position at which `<|/det|>` matches wins.  Returns the capture
and the text after the closing tag. -/
def detPart : Str → Option (Str × Str)
  | [] => none
  | c :: cs =>
    if detClose.isPrefixOf (c :: cs) then
      some ([], (c :: cs).drop 8)
    else if c = '\n' then none
    else (detPart cs).map (fun p => (c :: p.1, p.2))

/-- Lazy search for `<\|/ref\|><\|det\|>` followed by a successful
`detPart`, modelling the first `(.*?)` of `ResultProcessor.PATTERN`:
the label capture grows one (non-newline) character at a time, and a
candidate end is accepted only if the whole remainder of the pattern
also matches there (regex backtracking).  Returns label capture, coords
capture, and the rest of the text. -/
def refDetPart : Str → Option (Str × Str × Str)
  | [] => none
  | c :: cs =>
    match (if refCloseDet.isPrefixOf (c :: cs)
           then detPart ((c :: cs).drop 15) else none) with
    | some (coords, rest) => some ([], coords, rest)
    | none =>
      if c = '\n' then none
      else (refDetPart cs).map (fun p => (c :: p.1, p.2.1, p.2.2))

/-- Attempt to match `ResultProcessor.PATTERN` at the start of `s`,
returning (label capture, coords capture, text after the match). -/
def tryMatch (s : Str) : Option (Str × Str × Str) :=
  if refOpen.isPrefixOf s then refDetPart (s.drop 7) else none

/-- Fuelled scan for all non-overlapping matches of
`ResultProcessor.PATTERN`, left to right, as `re.findall` does: try a
match at each position; on success continue after the match, otherwise
advance one character.  `fuel ≥ s.length` is always sufficient. -/
def findSpansF : ℕ → Str → List (Str × Str)
  | 0, _ => []
  | _ + 1, [] => []
  | f + 1, c :: cs =>
    match tryMatch (c :: cs) with
    | some (label, coords, rest) => (label, coords) :: findSpansF f rest
    | none => findSpansF f cs

/-- All matches of `ResultProcessor.PATTERN` in `s` (label and coords
captures), in source order: the model of `re.findall(PATTERN, raw_text)`
in `ResultProcessor.extract_bounding_boxes`. -/
def findSpans (s : Str) : List (Str × Str) := findSpansF s.length s

/-- Fuelled model of `re.sub(PATTERN, r'\1', raw_text)`: every match of
the span pattern is replaced by its label capture; non-matching
characters are kept. -/
def cleanSubF : ℕ → Str → Str
  | 0, _ => []
  | _ + 1, [] => []
  | f + 1, c :: cs =>
    match tryMatch (c :: cs) with
    | some (label, _, rest) => label ++ cleanSubF f rest
    | none => c :: cleanSubF f cs

/-- The span-replacement pass of `ResultProcessor.clean_markdown`. -/
def cleanSub (s : Str) : Str := cleanSubF s.length s

/-- Fuelled model of `str.replace('<|grounding|>', '')`: remove every
(leftmost-first, non-overlapping) occurrence of the grounding tag. -/
def stripGroundF : ℕ → Str → Str
  | 0, _ => []
  | _ + 1, [] => []
  | f + 1, c :: cs =>
    if groundingTag.isPrefixOf (c :: cs) then stripGroundF f ((c :: cs).drop 13)
    else c :: stripGroundF f cs

/-- The grounding-tag removal pass of `ResultProcessor.clean_markdown`. -/
def stripGround (s : Str) : Str := stripGroundF s.length s

/-- Python `str` whitespace: the exact set `str.strip()` (equivalently
`str.isspace()` on one character) recognises — the ASCII whitespace and
C1 separators plus the Unicode space and line separators (NBSP, ogham
space mark, the en/em-quad family, line and paragraph separators,
narrow NBSP, medium mathematical space, ideographic space). -/
def pyWS (c : Char) : Bool :=
  c = '\t' || c = '\n' || c = '\x0b' || c = '\x0c' || c = '\r' ||
  c = '\x1c' || c = '\x1d' || c = '\x1e' || c = '\x1f' || c = ' ' ||
  c = '\x85' || c = '\xa0' || c = '\u1680' ||
  c = '\u2000' || c = '\u2001' || c = '\u2002' || c = '\u2003' ||
  c = '\u2004' || c = '\u2005' || c = '\u2006' || c = '\u2007' ||
  c = '\u2008' || c = '\u2009' || c = '\u200a' || c = '\u2028' ||
  c = '\u2029' || c = '\u202f' || c = '\u205f' || c = '\u3000'

/-- The whitespace the Python tokenizer skips between tokens inside a
bracketed expression (the situation of `eval` on a coordinate literal):
space, tab, form feed, and newlines by implicit line joining.  Strictly
narrower than `pyWS`: a NBSP inside the literal is a syntax error. -/
def pyTokWS (c : Char) : Bool :=
  c = ' ' || c = '\t' || c = '\x0c' || c = '\n' || c = '\r'

/-- Model of Python `str.strip()`: drop leading and trailing whitespace. -/
def pyStrip (s : Str) : Str :=
  ((s.dropWhile pyWS).reverse.dropWhile pyWS).reverse

/-- Python substring containment, modelling `needle in haystack`. -/
def containsSub (pat : Str) : Str → Bool
  | [] => pat.isPrefixOf []
  | c :: cs => pat.isPrefixOf (c :: cs) || containsSub pat cs

/-- A Python value produced by evaluating a coordinate literal of the
modelled fragment: numbers — ints, floats and booleans, all of which the
source divides by 999.0 alike; float literals are modelled exactly as
the rationals they denote — and lists and tuples of values.  `eval`
itself executes arbitrary Python: outside this fragment it can produce
other values, perform side effects, or raise exceptions that
`except Exception` does not catch (see the C3 analysis).  Accordingly,
no theorem in this development reads a failure of the fragment parser
as a statement about the source: only successful parses
(`pyEvalLiteral = some v`) are used as hypotheses, and on those the
source provably computes the same value. -/
inductive PyVal where
  | num : ℚ → PyVal
  | list : List PyVal → PyVal
  | tuple : List PyVal → PyVal

/-- Skip tokenizer whitespace inside a literal. -/
def skipWS : Str → Str
  | [] => []
  | c :: cs => if pyTokWS c then skipWS cs else c :: cs

/-- Parse a run of decimal digits: value, digit count, rest. -/
def digitsAux : Str → ℕ → ℕ → ℕ × ℕ × Str
  | [], acc, k => (acc, k, [])
  | c :: cs, acc, k =>
    if c.isDigit then digitsAux cs (acc * 10 + (c.toNat - 48)) (k + 1)
    else (acc, k, c :: cs)

/-- Parse an unsigned numeric literal of the fragment: `True`/`False`
(bools are ints in Python and divide like them), a float with a decimal
dot (digits on either side, at least one digit in total), or an integer
(leading zeros only on zero itself, as in Python 3). -/
def parseUnsignedNum (s : Str) : Option (ℚ × Str) :=
  match s with
  | 'T' :: 'r' :: 'u' :: 'e' :: rest => some (1, rest)
  | 'F' :: 'a' :: 'l' :: 's' :: 'e' :: rest => some (0, rest)
  | '.' :: c :: cs =>
    if c.isDigit then
      let p := digitsAux (c :: cs) 0 0
      some ((p.1 : ℚ) / (10 : ℚ) ^ p.2.1, p.2.2)
    else none
  | c :: cs =>
    if c.isDigit then
      let p := digitsAux (c :: cs) 0 0
      match p.2.2 with
      | '.' :: ds =>
        let q := digitsAux ds 0 0
        some ((p.1 : ℚ) + (q.1 : ℚ) / (10 : ℚ) ^ q.2.1, q.2.2)
      | rest =>
        if c = '0' ∧ p.1 ≠ 0 then none
        else some ((p.1 : ℚ), rest)
    else none
  | [] => none

/-- A numeric literal with an optional single sign directly before the
number.  (Python also evaluates longer unary-operator chains and spaced
signs; those stay outside the fragment.) -/
def parseNumLit (s : Str) : Option (ℚ × Str) :=
  match s with
  | '-' :: rest => (parseUnsignedNum rest).map (fun p => (-p.1, p.2))
  | '+' :: rest => parseUnsignedNum rest
  | _ => parseUnsignedNum s

mutual

/-- Parse one value of the fragment (fuelled): a list, a tuple or a
parenthesised value, or a numeric literal.  `(v)` is the value `v`, `()`
the empty tuple, `(v,)` and longer comma forms are tuples, as in
Python. -/
def parseVal : ℕ → Str → Option (PyVal × Str)
  | 0, _ => none
  | f + 1, s =>
    match skipWS s with
    | '[' :: rest =>
      (match skipWS rest with
       | ']' :: rest2 => some (.list [], rest2)
       | rest2 =>
         match parseElems f ']' rest2 with
         | some (vs, rest3) =>
           match skipWS rest3 with
           | ']' :: rest4 => some (.list vs, rest4)
           | _ => none
         | none => none)
    | '(' :: rest =>
      (match skipWS rest with
       | ')' :: rest2 => some (.tuple [], rest2)
       | rest2 =>
         match parseVal f rest2 with
         | some (v, rest3) =>
           (match skipWS rest3 with
            | ')' :: rest4 => some (v, rest4)
            | ',' :: rest4 =>
              (match skipWS rest4 with
               | ')' :: rest5 => some (.tuple [v], rest5)
               | rest5 =>
                 match parseElems f ')' rest5 with
                 | some (vs, rest6) =>
                   match skipWS rest6 with
                   | ')' :: rest7 => some (.tuple (v :: vs), rest7)
                   | _ => none
                 | none => none)
            | _ => none)
         | none => none)
    | s' => (parseNumLit s').map (fun p => (.num p.1, p.2))

/-- Parse a comma-separated sequence of values (fuelled); a trailing
comma before the given closing bracket is tolerated, as in Python. -/
def parseElems : ℕ → Char → Str → Option (List PyVal × Str)
  | 0, _, _ => none
  | f + 1, close, s =>
    match parseVal f s with
    | some (v, rest) =>
      match skipWS rest with
      | ',' :: rest2 =>
        (match skipWS rest2 with
         | c :: _ =>
           if c = close then some ([v], rest2)
           else
             match parseElems f close rest2 with
             | some (vs, rest3) => some (v :: vs, rest3)
             | none => none
         | [] => none)
      | _ => some ([v], rest)
    | none => none

end

/-- Model of `eval(coords_clean)` on the literal fragment: the whole
string must be one fragment literal up to tokenizer whitespace.
`some v` means Python's `eval` returns exactly `v`; `none` carries no
information about the source, whose `eval` accepts arbitrary
expressions beyond the fragment. -/
def pyEvalLiteral (s : Str) : Option PyVal :=
  match parseVal (2 * s.length + 2) s with
  | some (v, rest) => if skipWS rest = [] then some v else none
  | none => none

/-- The numeric content of a value: only numbers survive the divisions
by 999.0 (any other component raises a `TypeError` the per-match
handler catches). -/
def asNum : PyVal → Option ℚ
  | .num q => some q
  | _ => none

/-- Model of `x, y = p` followed by dividing both: `p` must be a
two-element list or tuple of numbers. -/
def unpack2 : PyVal → Option (ℚ × ℚ)
  | .list [a, b] =>
    (match asNum a, asNum b with
     | some x, some y => some (x, y)
     | _, _ => none)
  | .tuple [a, b] =>
    (match asNum a, asNum b with
     | some x, some y => some (x, y)
     | _, _ => none)
  | _ => none

/-- The shape check the per-match `try` body applies to the evaluated
value: `len(coord_list) == 2` (a two-element list or tuple), then
`x1, y1 = coord_list[0]` and `x2, y2 = coord_list[1]` with numeric
components for the divisions.  `none` is precisely the source skipping
the match: the failed length test falls through, and the failed
unpacking or division raises an `Exception` the handler catches. -/
def coordShape : PyVal → Option (ℚ × ℚ × ℚ × ℚ)
  | .list [p1, p2] =>
    (match unpack2 p1, unpack2 p2 with
     | some (x1, y1), some (x2, y2) => some (x1, y1, x2, y2)
     | _, _ => none)
  | .tuple [p1, p2] =>
    (match unpack2 p1, unpack2 p2 with
     | some (x1, y1), some (x2, y2) => some (x1, y1, x2, y2)
     | _, _ => none)
  | _ => none

/-- The per-match `try` body of `ResultProcessor.extract_bounding_boxes`
on the modelled fragment: strip the capture (`coords.strip()`, Python
whitespace), evaluate the literal, apply the shape check. -/
def processCoords (coords : Str) : Option (ℚ × ℚ × ℚ × ℚ) :=
  (pyEvalLiteral (pyStrip coords)).bind coordShape

/-- A bounding box as built by `ResultProcessor.extract_bounding_boxes`:
the label text and the four normalized coordinates. -/
structure BBox where
  text : Str
  bbox : ℚ × ℚ × ℚ × ℚ
deriving DecidableEq, Repr

/-- `ResultProcessor.extract_bounding_boxes`: every regex match whose
coords capture evaluates to a two-point pair of two numbers contributes
a box `{text, [x1/999.0, y1/999.0, x2/999.0, y2/999.0]}`, in source
order; matches whose coords fail to parse are skipped. -/
def extract_bounding_boxes (raw_text : Str) : List BBox :=
  (findSpans raw_text).filterMap (fun m =>
    (processCoords m.2).map (fun q =>
      { text := m.1
        bbox := (q.1 / 999, q.2.1 / 999, q.2.2.1 / 999, q.2.2.2 / 999) }))

/-- `ResultProcessor.clean_markdown`: replace every span match by its
label capture, remove every `<|grounding|>` tag, then strip surrounding
whitespace. -/
def clean_markdown (raw_text : Str) : Str :=
  pyStrip (stripGround (cleanSub raw_text))

/-- The dictionary returned by `ResultProcessor.parse_result`. -/
structure ParsedResult where
  raw_text : Str
  clean_text : Str
  bounding_boxes : List BBox
  has_grounding : Bool
deriving DecidableEq, Repr

/-- `ResultProcessor.parse_result`: compose cleaning and extraction and
set `has_grounding` iff both `<|ref|>` and `<|det|>` occur in the text. -/
def parse_result (raw_text : Str) : ParsedResult :=
  { raw_text := raw_text
    clean_text := clean_markdown raw_text
    bounding_boxes := extract_bounding_boxes raw_text
    has_grounding := containsSub refOpen raw_text && containsSub detOpen raw_text }

/-- One well-formed span of the markup wire format, for round-trip
statements: a label, a coordinate literal, and the four integers the
literal denotes. -/
structure SpanItem where
  label : Str
  coords : Str
  x0 : ℤ
  y0 : ℤ
  x1 : ℤ
  y1 : ℤ

/-- A label that is well-formed for the round-trip claims: free of the
markup-tag character and of newlines (so the regex captures it
verbatim), and neither starting nor ending with Python whitespace (the
set `str.strip()` removes, so the final `strip` of `clean_markdown`
cannot eat into it; both conditions vacuous for the empty label). -/
def NiceLabel (l : Str) : Prop :=
  '<' ∉ l ∧ '\n' ∉ l ∧
  l.head?.all (fun x => ! pyWS x) = true ∧
  l.getLast?.all (fun x => ! pyWS x) = true

/-- A coordinate capture the regex can take verbatim: free of the tag
character `<` and of newlines. -/
def SafeCoords (c : Str) : Prop := '<' ∉ c ∧ '\n' ∉ c

/-- A `SpanItem` whose label is well-formed and whose coordinate literal
evaluates to exactly its two integer points, with components in
[0, 999] (a "valid two-point integer coordinate pair"). -/
def NiceItem (it : SpanItem) : Prop :=
  NiceLabel it.label ∧ SafeCoords it.coords ∧
  processCoords it.coords =
    some ((it.x0 : ℚ), (it.y0 : ℚ), (it.x1 : ℚ), (it.y1 : ℚ)) ∧
  0 ≤ it.x0 ∧ it.x0 ≤ 999 ∧ 0 ≤ it.y0 ∧ it.y0 ≤ 999 ∧
  0 ≤ it.x1 ∧ it.x1 ≤ 999 ∧ 0 ≤ it.y1 ∧ it.y1 ≤ 999

instance (l : Str) : Decidable (NiceLabel l) := by
  unfold NiceLabel
  infer_instance

instance (c : Str) : Decidable (SafeCoords c) := by
  unfold SafeCoords
  infer_instance

instance (it : SpanItem) : Decidable (NiceItem it) := by
  unfold NiceItem
  infer_instance

/-- The raw text made of the given spans, concatenated in order. -/
def spansText (items : List SpanItem) : Str :=
  (items.map (fun it => mkSpan it.label it.coords)).flatten

/-- The concatenation of the labels of the given spans, in order. -/
def labelsText (items : List SpanItem) : Str :=
  (items.map SpanItem.label).flatten

/-- The bounding box a well-formed span should yield: its label and its
four coordinates each divided by 999.0. -/
def itemBox (it : SpanItem) : BBox :=
  { text := it.label
    bbox := ((it.x0 : ℚ) / 999, (it.y0 : ℚ) / 999,
             (it.x1 : ℚ) / 999, (it.y1 : ℚ) / 999) }

/-- The ordered keyword table of `ImageProcessor.get_resolution_params`
(`mode_mapping`; Python dicts iterate in insertion order). -/
def mode_mapping : List (Str × (ℕ × ℕ × Bool)) :=
  [("Tiny".data, (512, 512, false)),
   ("Small".data, (640, 640, false)),
   ("Base".data, (1024, 1024, false)),
   ("Large".data, (1280, 1280, false)),
   ("Gundam".data, (1024, 640, true))]

/-- `ImageProcessor.get_resolution_params`: return the tuple of the first
keyword that occurs in `mode` as a (case-sensitive) substring, and the
Base tuple when none does. -/
def get_resolution_params (mode : Str) : ℕ × ℕ × Bool :=
  match mode_mapping.find? (fun kv => containsSub kv.1 mode) with
  | some kv => kv.2
  | none => (1024, 1024, false)

/-- The resolution policy as the spec words it: test the label against
the fixed keyword order Tiny, Small, Base, Large, Gundam; the first
keyword occurring as a case-sensitive substring wins; with no match,
fall back to the Base tuple.  Stated independently of
`get_resolution_params` so that agreement between the two is a
theorem. -/
def resolveSpec (mode : Str) : ℕ × ℕ × Bool :=
  if containsSub "Tiny".data mode then (512, 512, false)
  else if containsSub "Small".data mode then (640, 640, false)
  else if containsSub "Base".data mode then (1024, 1024, false)
  else if containsSub "Large".data mode then (1280, 1280, false)
  else if containsSub "Gundam".data mode then (1024, 640, true)
  else (1024, 1024, false)

/-- What `model.infer` does on one call, from the orchestrator's point of
view: return a text, return `None` (the no-output sentinel), or raise. -/
inductive ModelReply where
  | text : Str → ModelReply
  | noneReply : ModelReply
  | raises : ModelReply
deriving DecidableEq, Repr

/-- The environment one `OCREngine.infer` call runs in: the model-manager
load state and the success or failure of each external effect the call
performs (staged-image write, scratch-dir creation, the model call, and
the two cleanup deletions), plus the measured wall time. -/
structure InferEnv where
  isLoaded : Bool
  saveOk : Bool
  mkdtempOk : Bool
  reply : ModelReply
  removeOk : Bool
  rmtreeOk : Bool
  elapsed : ℚ
deriving DecidableEq, Repr

/-- Decidable equality for `Except`, for evaluating outcomes on concrete
inputs. -/
instance {ε α : Type} [DecidableEq ε] [DecidableEq α] :
    DecidableEq (Except ε α) := fun a b =>
  match a, b with
  | .ok x, .ok y =>
    decidable_of_iff (x = y) ⟨fun h => h ▸ rfl, fun h => by cases h; rfl⟩
  | .ok _, .error _ => .isFalse (fun h => by cases h)
  | .error _, .ok _ => .isFalse (fun h => by cases h)
  | .error x, .error y =>
    decidable_of_iff (x = y) ⟨fun h => h ▸ rfl, fun h => by cases h; rfl⟩

/-- The error taxonomy of `OCREngine`, by raise site: `modelNotLoaded` is
the `RuntimeError` of the `is_loaded` precondition check (the spec's
`ModelNotLoadedError`), `inferenceFailed` the wrapped `RuntimeError`
raised by the outer `except` (the spec's `InferenceFailedError`), and
`argumentMismatch` the `ValueError` of `infer_batch` (the spec's
`ArgumentMismatchError`). -/
inductive EngineError where
  | modelNotLoaded : EngineError
  | inferenceFailed : EngineError
  | argumentMismatch : EngineError
deriving DecidableEq, Repr

/-- Everything observable about one `OCREngine.infer` call: its outcome
(result text, elapsed seconds, estimated token count — or which error it
raised), whether the model was invoked, whether staging began (the
`delete=False` temp file was created), and which transient artifacts are
left on disk when the call returns or raises. -/
structure InferOutcome where
  result : Except EngineError (Str × ℚ × ℕ)
  modelCalled : Bool
  stagingBegan : Bool
  tmpFileLeft : Bool
  tmpDirLeft : Bool
deriving DecidableEq, Repr

/-- `OCREngine.infer`, step for step.  The load-state gate runs before
the outer `try`.  The `NamedTemporaryFile(delete=False)` is created and
written *before* the inner `try`, so a failure of `image.save` or of
`tempfile.mkdtemp` propagates to the outer `except` (which wraps it in
one `RuntimeError`) without any cleanup running.  Once the inner `try`
is entered, its `finally` removes the temp file and then the scratch
dir inside a `try/except` of its own, so a cleanup failure is logged and
swallowed (and, because both removals share that one `try`, a failing
`os.remove` also skips the `rmtree`).  A `None` model result raises
inside the `try` and reaches the caller wrapped, like any model
exception.  `num_tokens` is `len(result_text) // 4` (0 for empty). -/
def infer (env : InferEnv) : InferOutcome :=
  if ¬ env.isLoaded then
    { result := .error .modelNotLoaded
      modelCalled := false, stagingBegan := false
      tmpFileLeft := false, tmpDirLeft := false }
  else if ¬ env.saveOk then
    { result := .error .inferenceFailed
      modelCalled := false, stagingBegan := true
      tmpFileLeft := true, tmpDirLeft := false }
  else if ¬ env.mkdtempOk then
    { result := .error .inferenceFailed
      modelCalled := false, stagingBegan := true
      tmpFileLeft := true, tmpDirLeft := false }
  else
    let primary : Except EngineError (Str × ℚ × ℕ) :=
      match env.reply with
      | .text t => .ok (t, env.elapsed, if t.isEmpty then 0 else t.length / 4)
      | .noneReply => .error .inferenceFailed
      | .raises => .error .inferenceFailed
    { result := primary
      modelCalled := true, stagingBegan := true
      tmpFileLeft := ¬ env.removeOk
      tmpDirLeft := if ¬ env.removeOk then true else ¬ env.rmtreeOk }

/-- Result of `OCREngine.infer_batch`: the returned list (or the raised
error) together with how many model invocations were made. -/
structure BatchOutcome where
  result : Except EngineError (List (Str × ℚ × ℕ))
  callsMade : ℕ
deriving DecidableEq, Repr

/-- The placeholder a failed batch item contributes: `("", 0.0, 0)`. -/
def placeholderResult : Str × ℚ × ℕ := ([], 0, 0)

/-- The value one batch item contributes: the item's `infer` result, or
the placeholder when that call raised (its exception is caught and
logged). -/
def batchItem (env : InferEnv) : Str × ℚ × ℕ :=
  match (infer env).result with
  | .ok r => r
  | .error _ => placeholderResult

/-- `OCREngine.infer_batch`: reject mismatched list lengths with a
`ValueError` before any work, then run `infer` on each `zip`ped
image/prompt pair strictly in order, catching per-item failures.
`images` carries, for each image, the environment its `infer` call
runs in; `prompts` only contributes its length and pairing. -/
def infer_batch (images : List InferEnv) (prompts : List Str) : BatchOutcome :=
  if images.length ≠ prompts.length then
    { result := .error .argumentMismatch, callsMade := 0 }
  else
    { result := .ok ((images.zip prompts).map (fun ip => batchItem ip.1))
      callsMade := ((images.zip prompts).filter
        (fun ip => (infer ip.1).modelCalled)).length }

/-- A PIL image: size plus pixel grid (row-major RGB values).  `copy`
models `Image.copy()`: a fresh object with the same size and pixels. -/
structure PILImage where
  width : ℕ
  height : ℕ
  pixels : List (List (ℕ × ℕ × ℕ))
deriving DecidableEq, Repr

/-- `Image.copy()` preserves size and pixel data exactly. -/
def PILImage.copy (im : PILImage) : PILImage := im

/-- One PIL drawing primitive invoked by
`ResultProcessor.draw_bounding_boxes`. -/
inductive DrawOp where
  | rectOutline : ℤ → ℤ → ℤ → ℤ → (ℕ × ℕ × ℕ) → ℕ → DrawOp
  | rectFill : ℤ → ℤ → ℤ → ℤ → (ℕ × ℕ × ℕ) → DrawOp
  | text : ℤ → ℤ → Str → (ℕ × ℕ × ℕ) → DrawOp
deriving DecidableEq, Repr

/-- The fixed 8-colour palette of `draw_bounding_boxes`. -/
def boxColors : List (ℕ × ℕ × ℕ) :=
  [(255, 0, 0), (0, 255, 0), (0, 0, 255), (255, 255, 0),
   (255, 0, 255), (0, 255, 255), (255, 128, 0), (128, 0, 255)]

/-- Environment of one `draw_bounding_boxes` call: whether the system
font loads (`ImageFont.truetype` on the PingFang path), and what
`draw.textbbox` returns for a given anchor and string (`none` models it
raising, which the per-label `try/except` swallows). -/
structure DrawEnv where
  fontLoadOk : Bool
  textbbox : ℤ → ℤ → Str → Option (ℤ × ℤ × ℤ × ℤ)

/-- Python `int()` on a rational: truncation toward zero. -/
def pyInt (q : ℚ) : ℤ := q.num.tdiv (q.den : ℤ)

/-- Apply one drawing primitive to the pixel grid.  Rectangle outlines
and fills set the covered pixels to the op's colour; glyph rasterisation
of `text` depends on the loaded font, which is external to the
repository, so the `text` op records the call and leaves pixels to the
renderer (modelled as unchanged). -/
def applyOp (im : PILImage) (op : DrawOp) : PILImage :=
  match op with
  | .rectOutline x1 y1 x2 y2 col w =>
    { im with
      pixels := im.pixels.mapIdx (fun y row =>
        row.mapIdx (fun x px =>
          if x1 ≤ (x : ℤ) ∧ (x : ℤ) ≤ x2 ∧ y1 ≤ (y : ℤ) ∧ (y : ℤ) ≤ y2 ∧
             ((x : ℤ) < x1 + w ∨ x2 - w < (x : ℤ) ∨
              (y : ℤ) < y1 + w ∨ y2 - w < (y : ℤ)) then col else px)) }
  | .rectFill x1 y1 x2 y2 col =>
    { im with
      pixels := im.pixels.mapIdx (fun y row =>
        row.mapIdx (fun x px =>
          if x1 ≤ (x : ℤ) ∧ (x : ℤ) ≤ x2 ∧ y1 ≤ (y : ℤ) ∧ (y : ℤ) ≤ y2
          then col else px)) }
  | .text _ _ _ _ => im

/-- The drawing primitives one box contributes, following the loop body
of `draw_bounding_boxes`: pixel coordinates by `int(coord * size)`,
colour by `idx % 8`, then — when labels are shown and the text is
non-empty — the truncated label, its background rectangle from
`draw.textbbox`, and the label text, with a `textbbox` failure skipping
both label ops. -/
def opsForBox (env : DrawEnv) (imgW imgH : ℕ) (font_size : ℕ)
    (show_text : Bool) (box_width : ℕ) (idx : ℕ) (b : BBox) : List DrawOp :=
  let x1 := pyInt (b.bbox.1 * imgW)
  let y1 := pyInt (b.bbox.2.1 * imgH)
  let x2 := pyInt (b.bbox.2.2.1 * imgW)
  let y2 := pyInt (b.bbox.2.2.2 * imgH)
  let color := boxColors.getD (idx % boxColors.length) (0, 0, 0)
  let rect := DrawOp.rectOutline x1 y1 x2 y2 color box_width
  if show_text ∧ b.text ≠ [] then
    let text_display :=
      if 20 < b.text.length then b.text.take 20 ++ "...".data else b.text
    let text_y := max 0 (y1 - (font_size : ℤ) - 5)
    match env.textbbox x1 text_y text_display with
    | some r =>
      [rect, .rectFill r.1 r.2.1 r.2.2.1 r.2.2.2 color,
       .text x1 text_y text_display (255, 255, 255)]
    | none => [rect]
  else [rect]

/-- `ResultProcessor.draw_bounding_boxes`: with no boxes, return a copy
of the input image at once, with no drawing calls; otherwise draw every
box (and optionally its label) onto a copy.  `font_size` is
`max(12, min(width, height) // 50)` whether or not the system font
loads (the fallback `load_default` replaces only the font object).
Returns the resulting image together with the list of drawing
primitives that were invoked on it. -/
def draw_bounding_boxes (env : DrawEnv) (image : PILImage) (boxes : List BBox)
    (show_text : Bool) (box_width : ℕ) : PILImage × List DrawOp :=
  if boxes.isEmpty then (image.copy, [])
  else
    let font_size := max 12 (min image.width image.height / 50)
    let ops := (boxes.enum.map (fun bi =>
      opsForBox env image.width image.height font_size show_text box_width
        bi.1 bi.2)).flatten
    (ops.foldl applyOp image.copy, ops)

/-- A raw text whose single span carries the out-of-range component 1000:
`eval` imposes no range check, so extraction emits a coordinate above 1. -/
def c2RawText : Str := "<|ref|>a<|/ref|><|det|>[[1000,0],[0,0]]<|/det|>".data

/-- A raw text whose single well-formed span has the label " a": the final
`strip` of `clean_markdown` eats the leading space, so the cleaned output
no longer contains the label as a substring. -/
def c4RawText : Str := "<|ref|> a<|/ref|><|det|>[[0,0],[1,1]]<|/det|>".data

/-! ### Helper lemmas about prefixes and substring containment -/

theorem isPrefixOf_append_self (p t : Str) : p.isPrefixOf (p ++ t) = true := by
  induction p with
  | nil => simp [List.isPrefixOf]
  | cons a as ih => simp [List.isPrefixOf, ih]

theorem containsSub_nil_pat (s : Str) : containsSub [] s = true := by
  cases s <;> simp [containsSub, List.isPrefixOf]

theorem isPrefixOf_false_of_head_ne {a b : Char} (h : a ≠ b) (p t : Str) :
    (a :: p).isPrefixOf (b :: t) = false := by
  simp [List.isPrefixOf, h]

theorem isPrefixOf_exists {p s : Str} (h : p.isPrefixOf s = true) :
    ∃ t, s = p ++ t := by
  induction p generalizing s with
  | nil => exact ⟨s, rfl⟩
  | cons a as ih =>
    cases s with
    | nil => simp [List.isPrefixOf] at h
    | cons b bs =>
      simp only [List.isPrefixOf, Bool.and_eq_true, beq_iff_eq] at h
      obtain ⟨t, ht⟩ := ih h.2
      exact ⟨t, by simp [h.1, ht]⟩

theorem containsSub_of_append (p u v : Str) :
    containsSub p (u ++ p ++ v) = true := by
  induction u with
  | nil =>
    cases p with
    | nil => simpa using containsSub_nil_pat v
    | cons a as =>
      have h := isPrefixOf_append_self (a :: as) v
      simp only [List.cons_append] at h
      simp [containsSub, h]
  | cons b bs ih =>
    simp only [List.cons_append, containsSub, Bool.or_eq_true]
    right
    simpa using ih

theorem exists_of_containsSub {p s : Str} (h : containsSub p s = true) :
    ∃ u v, s = u ++ p ++ v := by
  induction s with
  | nil =>
    simp only [containsSub] at h
    obtain ⟨t, ht⟩ := isPrefixOf_exists h
    exact ⟨[], t, by simpa using ht⟩
  | cons a as ih =>
    simp only [containsSub, Bool.or_eq_true] at h
    rcases h with h | h
    · obtain ⟨t, ht⟩ := isPrefixOf_exists h
      exact ⟨[], t, by simpa using ht⟩
    · obtain ⟨u, v, huv⟩ := ih h
      exact ⟨a :: u, v, by simp [huv]⟩

theorem mem_of_containsSub {p s : Str} {c : Char}
    (h : containsSub p s = true) (hc : c ∈ p) : c ∈ s := by
  obtain ⟨u, v, rfl⟩ := exists_of_containsSub h
  simp [hc]

theorem containsSub_false_of_not_mem {p s : Str} {c : Char}
    (hc : c ∈ p) (hs : c ∉ s) : containsSub p s = false := by
  cases h : containsSub p s with
  | false => rfl
  | true => exact absurd (mem_of_containsSub h hc) hs


/-! ### Fuel adequacy for the scanners -/

theorem detPart_length (s : Str) :
    ∀ p : Str × Str, detPart s = some p → p.2.length < s.length := by
  induction s with
  | nil => intro p h; simp [detPart] at h
  | cons c cs ih =>
    intro p h
    simp only [detPart] at h
    by_cases hpre : detClose.isPrefixOf (c :: cs) = true
    · rw [if_pos hpre] at h
      cases h
      simp only [List.length_drop, List.length_cons]
      omega
    · rw [if_neg hpre] at h
      by_cases hc : c = '\n'
      · rw [if_pos hc] at h; cases h
      · rw [if_neg hc] at h
        cases hd : detPart cs with
        | none => rw [hd] at h; simp at h
        | some q =>
          obtain ⟨q1, q2⟩ := q
          rw [hd] at h
          simp only [Option.map_some'] at h
          cases h
          have := ih (q1, q2) hd
          simp only [List.length_cons]
          simp only at this
          omega

theorem refDetPart_length (s : Str) :
    ∀ p : Str × Str × Str, refDetPart s = some p → p.2.2.length < s.length := by
  induction s with
  | nil => intro p h; simp [refDetPart] at h
  | cons c cs ih =>
    intro p h
    simp only [refDetPart] at h
    cases hifd : (if refCloseDet.isPrefixOf (c :: cs)
                  then detPart ((c :: cs).drop 15) else none) with
    | some q =>
      obtain ⟨q1, q2⟩ := q
      rw [hifd] at h
      cases h
      by_cases hpre : refCloseDet.isPrefixOf (c :: cs) = true
      · rw [if_pos hpre] at hifd
        have h1 := detPart_length _ (q1, q2) hifd
        have h2 : ((c :: cs).drop 15).length ≤ (c :: cs).length := by
          simp only [List.length_drop]
          omega
        simp only at h1
        exact lt_of_lt_of_le h1 h2
      · rw [if_neg hpre] at hifd; cases hifd
    | none =>
      rw [hifd] at h
      by_cases hc : c = '\n'
      · rw [if_pos hc] at h; cases h
      · rw [if_neg hc] at h
        cases hd : refDetPart cs with
        | none => rw [hd] at h; simp at h
        | some q =>
          obtain ⟨qa, qb, qc⟩ := q
          rw [hd] at h
          simp only [Option.map_some'] at h
          cases h
          have := ih (qa, qb, qc) hd
          simp only [List.length_cons]
          simp only at this
          omega

theorem tryMatch_length {s : Str} {p : Str × Str × Str}
    (h : tryMatch s = some p) : p.2.2.length < s.length := by
  simp only [tryMatch] at h
  by_cases hpre : refOpen.isPrefixOf s = true
  · rw [if_pos hpre] at h
    have h1 := refDetPart_length _ p h
    have h2 : (s.drop 7).length ≤ s.length := by
      simp only [List.length_drop]
      omega
    exact lt_of_lt_of_le h1 h2
  · rw [if_neg hpre] at h; cases h

theorem findSpansF_nil (f : ℕ) : findSpansF f [] = [] := by
  cases f <;> rfl

theorem findSpansF_congr (f : ℕ) :
    ∀ (g : ℕ) (s : Str), s.length ≤ f → s.length ≤ g →
      findSpansF f s = findSpansF g s := by
  induction f with
  | zero =>
    intro g s hf _
    have : s = [] := List.length_eq_zero.mp (Nat.le_zero.mp hf)
    subst this
    rw [findSpansF_nil, findSpansF_nil]
  | succ f ih =>
    intro g s hf hg
    cases s with
    | nil => rw [findSpansF_nil, findSpansF_nil]
    | cons c cs =>
      cases g with
      | zero => simp at hg
      | succ g =>
        simp only [findSpansF]
        cases hm : tryMatch (c :: cs) with
        | some m =>
          obtain ⟨l, co, r⟩ := m
          have hlen := tryMatch_length hm
          simp only [List.length_cons] at hf hg
          simp only [List.length_cons] at hlen
          show (l, co) :: findSpansF f r = (l, co) :: findSpansF g r
          rw [ih g r (by omega) (by omega)]
        | none =>
          simp only [List.length_cons] at hf hg
          show findSpansF f cs = findSpansF g cs
          rw [ih g cs (by omega) (by omega)]

theorem findSpans_cons_some {c : Char} {cs l co r : Str}
    (h : tryMatch (c :: cs) = some (l, co, r)) :
    findSpans (c :: cs) = (l, co) :: findSpans r := by
  have hlen := tryMatch_length h
  simp only [List.length_cons] at hlen
  simp only [findSpans, List.length_cons, findSpansF, h]
  rw [findSpansF_congr cs.length r.length r (by omega) le_rfl]

theorem findSpans_cons_none {c : Char} {cs : Str}
    (h : tryMatch (c :: cs) = none) :
    findSpans (c :: cs) = findSpans cs := by
  simp only [findSpans, List.length_cons, findSpansF, h]

theorem cleanSubF_nil (f : ℕ) : cleanSubF f [] = [] := by
  cases f <;> rfl

theorem cleanSubF_congr (f : ℕ) :
    ∀ (g : ℕ) (s : Str), s.length ≤ f → s.length ≤ g →
      cleanSubF f s = cleanSubF g s := by
  induction f with
  | zero =>
    intro g s hf _
    have : s = [] := List.length_eq_zero.mp (Nat.le_zero.mp hf)
    subst this
    rw [cleanSubF_nil, cleanSubF_nil]
  | succ f ih =>
    intro g s hf hg
    cases s with
    | nil => rw [cleanSubF_nil, cleanSubF_nil]
    | cons c cs =>
      cases g with
      | zero => simp at hg
      | succ g =>
        simp only [cleanSubF]
        cases hm : tryMatch (c :: cs) with
        | some m =>
          obtain ⟨l, co, r⟩ := m
          have hlen := tryMatch_length hm
          simp only [List.length_cons] at hf hg
          simp only [List.length_cons] at hlen
          show l ++ cleanSubF f r = l ++ cleanSubF g r
          rw [ih g r (by omega) (by omega)]
        | none =>
          simp only [List.length_cons] at hf hg
          show c :: cleanSubF f cs = c :: cleanSubF g cs
          rw [ih g cs (by omega) (by omega)]

theorem cleanSub_cons_some {c : Char} {cs l co r : Str}
    (h : tryMatch (c :: cs) = some (l, co, r)) :
    cleanSub (c :: cs) = l ++ cleanSub r := by
  have hlen := tryMatch_length h
  simp only [List.length_cons] at hlen
  simp only [cleanSub, List.length_cons, cleanSubF, h]
  rw [cleanSubF_congr cs.length r.length r (by omega) le_rfl]

theorem cleanSub_cons_none {c : Char} {cs : Str}
    (h : tryMatch (c :: cs) = none) :
    cleanSub (c :: cs) = c :: cleanSub cs := by
  simp only [cleanSub, List.length_cons, cleanSubF, h]

theorem stripGroundF_nil (f : ℕ) : stripGroundF f [] = [] := by
  cases f <;> rfl

theorem stripGroundF_congr (f : ℕ) :
    ∀ (g : ℕ) (s : Str), s.length ≤ f → s.length ≤ g →
      stripGroundF f s = stripGroundF g s := by
  induction f with
  | zero =>
    intro g s hf _
    have : s = [] := List.length_eq_zero.mp (Nat.le_zero.mp hf)
    subst this
    rw [stripGroundF_nil, stripGroundF_nil]
  | succ f ih =>
    intro g s hf hg
    cases s with
    | nil => rw [stripGroundF_nil, stripGroundF_nil]
    | cons c cs =>
      cases g with
      | zero => simp at hg
      | succ g =>
        simp only [stripGroundF]
        by_cases hpre : groundingTag.isPrefixOf (c :: cs) = true
        · rw [if_pos hpre, if_pos hpre]
          simp only [List.length_cons] at hf hg
          rw [ih g ((c :: cs).drop 13)
            (by simp only [List.length_drop, List.length_cons]; omega)
            (by simp only [List.length_drop, List.length_cons]; omega)]
        · rw [if_neg hpre, if_neg hpre]
          simp only [List.length_cons] at hf hg
          rw [ih g cs (by omega) (by omega)]

theorem stripGround_cons_keep {c : Char} {cs : Str}
    (h : groundingTag.isPrefixOf (c :: cs) = false) :
    stripGround (c :: cs) = c :: stripGround cs := by
  simp only [stripGround, List.length_cons, stripGroundF, h, Bool.false_eq_true,
    if_false]

/-! ### Matching a well-formed span -/

theorem detPart_cons (a : Char) (t : Str) :
    detPart (a :: t) =
      if detClose.isPrefixOf (a :: t) then some ([], (a :: t).drop 8)
      else if a = '\n' then none
      else (detPart t).map (fun p => (a :: p.1, p.2)) := rfl

theorem refDetPart_cons (a : Char) (t : Str) :
    refDetPart (a :: t) =
      match (if refCloseDet.isPrefixOf (a :: t)
             then detPart ((a :: t).drop 15) else none) with
      | some (coords, rest) => some ([], coords, rest)
      | none =>
        if a = '\n' then none
        else (refDetPart t).map (fun p => (a :: p.1, p.2.1, p.2.2)) := rfl

theorem detPart_wf (c : Str) (hc1 : '<' ∉ c) (hc2 : '\n' ∉ c) (t : Str) :
    detPart (c ++ detClose ++ t) = some (c, t) := by
  induction c with
  | nil =>
    show detPart ('<' :: '|' :: '/' :: 'd' :: 'e' :: 't' :: '|' :: '>' :: t) =
      some ([], t)
    rw [detPart_cons]
    have hpre : detClose.isPrefixOf
        ('<' :: '|' :: '/' :: 'd' :: 'e' :: 't' :: '|' :: '>' :: t) = true :=
      isPrefixOf_append_self detClose t
    rw [if_pos hpre]
    rfl
  | cons a as ih =>
    simp only [List.mem_cons, not_or] at hc1 hc2
    show detPart (a :: (as ++ detClose ++ t)) = some (a :: as, t)
    rw [detPart_cons]
    have hpre : detClose.isPrefixOf (a :: (as ++ detClose ++ t)) = false :=
      isPrefixOf_false_of_head_ne hc1.1 _ _
    have hpre' : ¬ detClose.isPrefixOf (a :: (as ++ detClose ++ t)) = true := by
      rw [hpre]
      exact Bool.false_ne_true
    rw [if_neg hpre']
    have ha : ¬ (a = '\n') := fun h => hc2.1 h.symm
    rw [if_neg ha, ih hc1.2 hc2.2]
    rfl

theorem refDetPart_wf (l : Str) (hl1 : '<' ∉ l) (hl2 : '\n' ∉ l)
    (c : Str) (hc1 : '<' ∉ c) (hc2 : '\n' ∉ c) (t : Str) :
    refDetPart (l ++ refCloseDet ++ c ++ detClose ++ t) = some (l, c, t) := by
  induction l with
  | nil =>
    show refDetPart ('<' :: '|' :: '/' :: 'r' :: 'e' :: 'f' :: '|' :: '>' ::
      '<' :: '|' :: 'd' :: 'e' :: 't' :: '|' :: '>' :: (c ++ detClose ++ t)) =
      some ([], c, t)
    rw [refDetPart_cons]
    have hpre : refCloseDet.isPrefixOf ('<' :: '|' :: '/' :: 'r' :: 'e' :: 'f' ::
        '|' :: '>' :: '<' :: '|' :: 'd' :: 'e' :: 't' :: '|' :: '>' ::
        (c ++ detClose ++ t)) = true :=
      isPrefixOf_append_self refCloseDet (c ++ detClose ++ t)
    rw [if_pos hpre]
    have hdrop : List.drop 15 ('<' :: '|' :: '/' :: 'r' :: 'e' :: 'f' :: '|' ::
        '>' :: '<' :: '|' :: 'd' :: 'e' :: 't' :: '|' :: '>' ::
        (c ++ detClose ++ t)) = c ++ detClose ++ t := rfl
    rw [hdrop, detPart_wf c hc1 hc2 t]
  | cons a as ih =>
    simp only [List.mem_cons, not_or] at hl1 hl2
    show refDetPart (a :: (as ++ refCloseDet ++ c ++ detClose ++ t)) =
      some (a :: as, c, t)
    rw [refDetPart_cons]
    have hpre : refCloseDet.isPrefixOf
        (a :: (as ++ refCloseDet ++ c ++ detClose ++ t)) = false :=
      isPrefixOf_false_of_head_ne hl1.1 _ _
    have ha : ¬ (a = '\n') := fun h => hl2.1 h.symm
    simp only [hpre, Bool.false_eq_true, if_false]
    rw [if_neg ha, ih hl1.2 hl2.2]
    rfl

theorem tryMatch_span (l : Str) (hl1 : '<' ∉ l) (hl2 : '\n' ∉ l)
    (c : Str) (hc1 : '<' ∉ c) (hc2 : '\n' ∉ c) (t : Str) :
    tryMatch (mkSpan l c ++ t) = some (l, c, t) := by
  have hpre : refOpen.isPrefixOf (mkSpan l c ++ t) = true := by
    have h := isPrefixOf_append_self refOpen
      (l ++ refCloseDet ++ c ++ detClose ++ t)
    calc refOpen.isPrefixOf (mkSpan l c ++ t)
        = refOpen.isPrefixOf (refOpen ++ (l ++ refCloseDet ++ c ++ detClose ++ t))
          := by simp [mkSpan, List.append_assoc]
      _ = true := h
  rw [tryMatch, if_pos hpre]
  have hdrop : (mkSpan l c ++ t).drop 7 = l ++ refCloseDet ++ c ++ detClose ++ t := by
    have : mkSpan l c ++ t =
        refOpen ++ (l ++ refCloseDet ++ c ++ detClose ++ t) := by
      simp [mkSpan, List.append_assoc]
    rw [this]
    exact List.drop_left' (by rfl)
  rw [hdrop]
  exact refDetPart_wf l hl1 hl2 c hc1 hc2 t

theorem tryMatch_none_head {a : Char} (ha : a ≠ '<') (t : Str) :
    tryMatch (a :: t) = none := by
  have hpre : refOpen.isPrefixOf (a :: t) = false :=
    isPrefixOf_false_of_head_ne (Ne.symm ha) _ _
  have hpre' : ¬ refOpen.isPrefixOf (a :: t) = true := by
    rw [hpre]
    exact Bool.false_ne_true
  rw [tryMatch, if_neg hpre']

theorem findSpans_span (l : Str) (hl1 : '<' ∉ l) (hl2 : '\n' ∉ l)
    (c : Str) (hc1 : '<' ∉ c) (hc2 : '\n' ∉ c) (t : Str) :
    findSpans (mkSpan l c ++ t) = (l, c) :: findSpans t := by
  have hm := tryMatch_span l hl1 hl2 c hc1 hc2 t
  have hshape : mkSpan l c ++ t =
      '<' :: ('|' :: 'r' :: 'e' :: 'f' :: '|' :: '>' ::
        (l ++ refCloseDet ++ c ++ detClose ++ t)) := by
    simp [mkSpan, refOpen, List.append_assoc]
  rw [hshape] at hm ⊢
  exact findSpans_cons_some hm

theorem cleanSub_span (l : Str) (hl1 : '<' ∉ l) (hl2 : '\n' ∉ l)
    (c : Str) (hc1 : '<' ∉ c) (hc2 : '\n' ∉ c) (t : Str) :
    cleanSub (mkSpan l c ++ t) = l ++ cleanSub t := by
  have hm := tryMatch_span l hl1 hl2 c hc1 hc2 t
  have hshape : mkSpan l c ++ t =
      '<' :: ('|' :: 'r' :: 'e' :: 'f' :: '|' :: '>' ::
        (l ++ refCloseDet ++ c ++ detClose ++ t)) := by
    simp [mkSpan, refOpen, List.append_assoc]
  rw [hshape] at hm ⊢
  exact cleanSub_cons_some hm

theorem findSpans_append_safe (xs : Str) (h : ∀ x ∈ xs, x ≠ '<') (t : Str) :
    findSpans (xs ++ t) = findSpans t := by
  induction xs with
  | nil => simp
  | cons a as ih =>
    have ha : a ≠ '<' := h a (by simp)
    rw [List.cons_append, findSpans_cons_none (tryMatch_none_head ha _),
      ih (fun x hx => h x (by simp [hx]))]

theorem cleanSub_append_safe (xs : Str) (h : ∀ x ∈ xs, x ≠ '<') (t : Str) :
    cleanSub (xs ++ t) = xs ++ cleanSub t := by
  induction xs with
  | nil => simp
  | cons a as ih =>
    have ha : a ≠ '<' := h a (by simp)
    rw [List.cons_append, cleanSub_cons_none (tryMatch_none_head ha _),
      ih (fun x hx => h x (by simp [hx])), List.cons_append]

theorem stripGround_append_safe (xs : Str) (h : ∀ x ∈ xs, x ≠ '<') (t : Str) :
    stripGround (xs ++ t) = xs ++ stripGround t := by
  induction xs with
  | nil => simp
  | cons a as ih =>
    have ha : a ≠ '<' := h a (by simp)
    have hpre : groundingTag.isPrefixOf (a :: (as ++ t)) = false :=
      isPrefixOf_false_of_head_ne (Ne.symm ha) _ _
    rw [List.cons_append, stripGround_cons_keep hpre,
      ih (fun x hx => h x (by simp [hx])), List.cons_append]

/-! ### Spans broken by a newline never match -/

theorem detPart_none_nl (c : Str) (hc1 : '<' ∉ c) (hc2 : '\n' ∈ c) (t : Str) :
    detPart (c ++ t) = none := by
  induction c with
  | nil => simp at hc2
  | cons a as ih =>
    simp only [List.mem_cons, not_or] at hc1
    show detPart (a :: (as ++ t)) = none
    rw [detPart_cons]
    have hpre : detClose.isPrefixOf (a :: (as ++ t)) = false :=
      isPrefixOf_false_of_head_ne hc1.1 _ _
    have hpre' : ¬ detClose.isPrefixOf (a :: (as ++ t)) = true := by
      rw [hpre]
      exact Bool.false_ne_true
    rw [if_neg hpre']
    by_cases ha : a = '\n'
    · rw [if_pos ha]
    · rw [if_neg ha]
      have has : '\n' ∈ as := by
        rcases List.mem_cons.mp hc2 with h | h
        · exact absurd h.symm ha
        · exact h
      rw [ih hc1.2 has]
      rfl

theorem refDetPart_cons_scrut_none (a : Char) (t : Str)
    (h : (if refCloseDet.isPrefixOf (a :: t)
          then detPart ((a :: t).drop 15) else none) = none) :
    refDetPart (a :: t) =
      if a = '\n' then none
      else (refDetPart t).map (fun p => (a :: p.1, p.2.1, p.2.2)) := by
  rw [refDetPart_cons, h]

theorem refDetPart_step_none (a : Char) (t : Str)
    (h1 : refCloseDet.isPrefixOf (a :: t) = true → detPart ((a :: t).drop 15) = none)
    (h2 : a ≠ '\n') (h3 : refDetPart t = none) :
    refDetPart (a :: t) = none := by
  have hscrut : (if refCloseDet.isPrefixOf (a :: t)
                 then detPart ((a :: t).drop 15) else none) = none := by
    by_cases hpre : refCloseDet.isPrefixOf (a :: t) = true
    · rw [if_pos hpre]
      exact h1 hpre
    · rw [if_neg hpre]
  rw [refDetPart_cons_scrut_none a t hscrut, if_neg h2, h3]
  rfl

theorem refDetPart_none_nl (l : Str) (hl1 : '<' ∉ l) (hl2 : '\n' ∈ l) (t : Str) :
    refDetPart (l ++ t) = none := by
  induction l with
  | nil => simp at hl2
  | cons a as ih =>
    simp only [List.mem_cons, not_or] at hl1
    show refDetPart (a :: (as ++ t)) = none
    have hpre : refCloseDet.isPrefixOf (a :: (as ++ t)) = false :=
      isPrefixOf_false_of_head_ne hl1.1 _ _
    have h1 : refCloseDet.isPrefixOf (a :: (as ++ t)) = true →
        detPart ((a :: (as ++ t)).drop 15) = none := by
      intro hp
      rw [hpre] at hp
      cases hp
    by_cases ha : a = '\n'
    · have hscrut : (if refCloseDet.isPrefixOf (a :: (as ++ t))
                     then detPart ((a :: (as ++ t)).drop 15) else none) = none := by
        by_cases hp : refCloseDet.isPrefixOf (a :: (as ++ t)) = true
        · exact absurd hp (by rw [hpre]; exact Bool.false_ne_true)
        · rw [if_neg hp]
      rw [refDetPart_cons_scrut_none a _ hscrut, if_pos ha]
    · have has : '\n' ∈ as := by
        rcases List.mem_cons.mp hl2 with h | h
        · exact absurd h.symm ha
        · exact h
      exact refDetPart_step_none a _ h1 ha (ih hl1.2 has)

theorem refDetPart_skip_safe (xs : Str) (h : ∀ x ∈ xs, x ≠ '<' ∧ x ≠ '\n')
    (t : Str) (h3 : refDetPart t = none) : refDetPart (xs ++ t) = none := by
  induction xs with
  | nil => simpa using h3
  | cons a as ih =>
    have ha := h a (by simp)
    show refDetPart (a :: (as ++ t)) = none
    have hpre : refCloseDet.isPrefixOf (a :: (as ++ t)) = false :=
      isPrefixOf_false_of_head_ne (Ne.symm ha.1) _ _
    refine refDetPart_step_none a _ (fun hp => ?_) ha.2
      (ih (fun x hx => h x (by simp [hx])))
    rw [hpre] at hp
    cases hp

theorem refDetPart_none_case_b (l c : Str) (hl1 : '<' ∉ l) (hl2 : '\n' ∉ l)
    (hc1 : '<' ∉ c) (hc2 : '\n' ∈ c) :
    refDetPart (l ++ refCloseDet ++ c ++ detClose) = none := by
  have step2 : refDetPart
      ('<' :: '|' :: 'd' :: 'e' :: 't' :: '|' :: '>' :: (c ++ detClose)) = none := by
    refine refDetPart_step_none _ _ (fun hp => ?_) (by decide)
      (refDetPart_skip_safe ['|', 'd', 'e', 't', '|', '>'] (by decide) _
        (refDetPart_none_nl c hc1 hc2 detClose))
    have hf : refCloseDet.isPrefixOf
        ('<' :: '|' :: 'd' :: 'e' :: 't' :: '|' :: '>' :: (c ++ detClose)) = false := rfl
    rw [hf] at hp
    cases hp
  have step1 : refDetPart
      ('<' :: '|' :: '/' :: 'r' :: 'e' :: 'f' :: '|' :: '>' ::
       '<' :: '|' :: 'd' :: 'e' :: 't' :: '|' :: '>' :: (c ++ detClose)) = none := by
    refine refDetPart_step_none _ _ (fun hp => ?_) (by decide)
      (refDetPart_skip_safe ['|', '/', 'r', 'e', 'f', '|', '>'] (by decide) _ step2)
    show detPart (c ++ detClose) = none
    exact detPart_none_nl c hc1 hc2 detClose
  have hassoc : l ++ refCloseDet ++ c ++ detClose =
      l ++ (refCloseDet ++ (c ++ detClose)) := by
    simp [List.append_assoc]
  rw [hassoc]
  refine refDetPart_skip_safe l
    (fun x hx => ⟨fun h => hl1 (h ▸ hx), fun h => hl2 (h ▸ hx)⟩) _ ?_
  exact step1

theorem tryMatch_none_span (l c : Str) (hl1 : '<' ∉ l) (hc1 : '<' ∉ c)
    (hnl : '\n' ∈ l ∨ ('\n' ∉ l ∧ '\n' ∈ c)) :
    tryMatch (mkSpan l c) = none := by
  have hpre : refOpen.isPrefixOf (mkSpan l c) = true := by
    have h := isPrefixOf_append_self refOpen (l ++ refCloseDet ++ c ++ detClose)
    calc refOpen.isPrefixOf (mkSpan l c)
        = refOpen.isPrefixOf (refOpen ++ (l ++ refCloseDet ++ c ++ detClose))
          := by simp [mkSpan, List.append_assoc]
      _ = true := h
  rw [tryMatch, if_pos hpre]
  have hdrop : (mkSpan l c).drop 7 = l ++ refCloseDet ++ c ++ detClose := by
    have hsh : mkSpan l c =
        refOpen ++ (l ++ refCloseDet ++ c ++ detClose) := by
      simp [mkSpan, List.append_assoc]
    rw [hsh]
    exact List.drop_left' (by rfl)
  rw [hdrop]
  rcases hnl with h | ⟨h1, h2⟩
  · have hassoc : l ++ refCloseDet ++ c ++ detClose =
        l ++ (refCloseDet ++ (c ++ detClose)) := by
      simp [List.append_assoc]
    rw [hassoc]
    exact refDetPart_none_nl l hl1 h _
  · exact refDetPart_none_case_b l c hl1 h1 hc1 h2

theorem tryMatch_none_refCloseDet_head (y : Str) :
    tryMatch ('<' :: '|' :: '/' :: 'r' :: 'e' :: 'f' :: '|' :: '>' :: y) = none := by
  have hf : refOpen.isPrefixOf
      ('<' :: '|' :: '/' :: 'r' :: 'e' :: 'f' :: '|' :: '>' :: y) = false := rfl
  rw [tryMatch, if_neg (by rw [hf]; exact Bool.false_ne_true)]

theorem tryMatch_none_detOpen_head (y : Str) :
    tryMatch ('<' :: '|' :: 'd' :: 'e' :: 't' :: '|' :: '>' :: y) = none := by
  have hf : refOpen.isPrefixOf
      ('<' :: '|' :: 'd' :: 'e' :: 't' :: '|' :: '>' :: y) = false := rfl
  rw [tryMatch, if_neg (by rw [hf]; exact Bool.false_ne_true)]

theorem tryMatch_none_detClose_head (y : Str) :
    tryMatch ('<' :: '|' :: '/' :: 'd' :: 'e' :: 't' :: '|' :: '>' :: y) = none := by
  have hf : refOpen.isPrefixOf
      ('<' :: '|' :: '/' :: 'd' :: 'e' :: 't' :: '|' :: '>' :: y) = false := rfl
  rw [tryMatch, if_neg (by rw [hf]; exact Bool.false_ne_true)]

theorem findSpans_broken_span (l c : Str) (hl1 : '<' ∉ l) (hc1 : '<' ∉ c)
    (hnl : '\n' ∈ l ∨ ('\n' ∉ l ∧ '\n' ∈ c)) :
    findSpans (mkSpan l c) = [] := by
  have htm := tryMatch_none_span l c hl1 hc1 hnl
  have h0 : mkSpan l c = '<' :: ('|' :: 'r' :: 'e' :: 'f' :: '|' :: '>' ::
      (l ++ (refCloseDet ++ (c ++ detClose)))) := by
    simp [mkSpan, refOpen, List.append_assoc]
  rw [h0] at htm
  rw [h0, findSpans_cons_none htm]
  have h1 : findSpans ('|' :: 'r' :: 'e' :: 'f' :: '|' :: '>' ::
      (l ++ (refCloseDet ++ (c ++ detClose)))) =
      findSpans (l ++ (refCloseDet ++ (c ++ detClose))) :=
    findSpans_append_safe ['|', 'r', 'e', 'f', '|', '>'] (by decide) _
  rw [h1, findSpans_append_safe l (fun x hx h => hl1 (h ▸ hx)) _]
  have h2 : findSpans (refCloseDet ++ (c ++ detClose)) =
      findSpans ('|' :: '/' :: 'r' :: 'e' :: 'f' :: '|' :: '>' ::
        '<' :: '|' :: 'd' :: 'e' :: 't' :: '|' :: '>' :: (c ++ detClose)) :=
    findSpans_cons_none (tryMatch_none_refCloseDet_head _)
  rw [h2]
  have h3 : findSpans ('|' :: '/' :: 'r' :: 'e' :: 'f' :: '|' :: '>' ::
      '<' :: '|' :: 'd' :: 'e' :: 't' :: '|' :: '>' :: (c ++ detClose)) =
      findSpans ('<' :: '|' :: 'd' :: 'e' :: 't' :: '|' :: '>' :: (c ++ detClose)) :=
    findSpans_append_safe ['|', '/', 'r', 'e', 'f', '|', '>'] (by decide) _
  rw [h3, findSpans_cons_none (tryMatch_none_detOpen_head _)]
  have h4 : findSpans ('|' :: 'd' :: 'e' :: 't' :: '|' :: '>' :: (c ++ detClose)) =
      findSpans (c ++ detClose) :=
    findSpans_append_safe ['|', 'd', 'e', 't', '|', '>'] (by decide) _
  rw [h4, findSpans_append_safe c (fun x hx h => hc1 (h ▸ hx)) _]
  decide

theorem cleanSub_broken_span (l c : Str) (hl1 : '<' ∉ l) (hc1 : '<' ∉ c)
    (hnl : '\n' ∈ l ∨ ('\n' ∉ l ∧ '\n' ∈ c)) :
    cleanSub (mkSpan l c) = mkSpan l c := by
  have htm := tryMatch_none_span l c hl1 hc1 hnl
  have h0 : mkSpan l c = '<' :: ('|' :: 'r' :: 'e' :: 'f' :: '|' :: '>' ::
      (l ++ (refCloseDet ++ (c ++ detClose)))) := by
    simp [mkSpan, refOpen, List.append_assoc]
  rw [h0] at htm
  rw [h0, cleanSub_cons_none htm]
  have h1 : cleanSub ('|' :: 'r' :: 'e' :: 'f' :: '|' :: '>' ::
      (l ++ (refCloseDet ++ (c ++ detClose)))) =
      ['|', 'r', 'e', 'f', '|', '>'] ++
        cleanSub (l ++ (refCloseDet ++ (c ++ detClose))) :=
    cleanSub_append_safe ['|', 'r', 'e', 'f', '|', '>'] (by decide) _
  rw [h1, cleanSub_append_safe l (fun x hx h => hl1 (h ▸ hx)) _]
  have h2 : cleanSub (refCloseDet ++ (c ++ detClose)) =
      '<' :: cleanSub ('|' :: '/' :: 'r' :: 'e' :: 'f' :: '|' :: '>' ::
        '<' :: '|' :: 'd' :: 'e' :: 't' :: '|' :: '>' :: (c ++ detClose)) :=
    cleanSub_cons_none (tryMatch_none_refCloseDet_head _)
  rw [h2]
  have h3 : cleanSub ('|' :: '/' :: 'r' :: 'e' :: 'f' :: '|' :: '>' ::
      '<' :: '|' :: 'd' :: 'e' :: 't' :: '|' :: '>' :: (c ++ detClose)) =
      ['|', '/', 'r', 'e', 'f', '|', '>'] ++
        cleanSub ('<' :: '|' :: 'd' :: 'e' :: 't' :: '|' :: '>' :: (c ++ detClose)) :=
    cleanSub_append_safe ['|', '/', 'r', 'e', 'f', '|', '>'] (by decide) _
  rw [h3, cleanSub_cons_none (tryMatch_none_detOpen_head _)]
  have h4 : cleanSub ('|' :: 'd' :: 'e' :: 't' :: '|' :: '>' :: (c ++ detClose)) =
      ['|', 'd', 'e', 't', '|', '>'] ++ cleanSub (c ++ detClose) :=
    cleanSub_append_safe ['|', 'd', 'e', 't', '|', '>'] (by decide) _
  rw [h4, cleanSub_append_safe c (fun x hx h => hc1 (h ▸ hx)) _]
  have h5 : cleanSub detClose = detClose := by decide
  rw [h5]
  simp [mkSpan, refOpen, refCloseDet, detClose, List.append_assoc]

theorem stripGround_span_id (l c : Str) (hl1 : '<' ∉ l) (hc1 : '<' ∉ c) :
    stripGround (mkSpan l c) = mkSpan l c := by
  have h0 : mkSpan l c = '<' :: ('|' :: 'r' :: 'e' :: 'f' :: '|' :: '>' ::
      (l ++ (refCloseDet ++ (c ++ detClose)))) := by
    simp [mkSpan, refOpen, List.append_assoc]
  rw [h0]
  have k0 : groundingTag.isPrefixOf ('<' :: '|' :: 'r' :: 'e' :: 'f' :: '|' :: '>' ::
      (l ++ (refCloseDet ++ (c ++ detClose)))) = false := rfl
  rw [stripGround_cons_keep k0]
  have h1 : stripGround ('|' :: 'r' :: 'e' :: 'f' :: '|' :: '>' ::
      (l ++ (refCloseDet ++ (c ++ detClose)))) =
      ['|', 'r', 'e', 'f', '|', '>'] ++
        stripGround (l ++ (refCloseDet ++ (c ++ detClose))) :=
    stripGround_append_safe ['|', 'r', 'e', 'f', '|', '>'] (by decide) _
  rw [h1, stripGround_append_safe l (fun x hx h => hl1 (h ▸ hx)) _]
  have k1 : groundingTag.isPrefixOf ('<' :: '|' :: '/' :: 'r' :: 'e' :: 'f' :: '|' ::
      '>' :: '<' :: '|' :: 'd' :: 'e' :: 't' :: '|' :: '>' :: (c ++ detClose)) = false := rfl
  have h2 : stripGround (refCloseDet ++ (c ++ detClose)) =
      '<' :: stripGround ('|' :: '/' :: 'r' :: 'e' :: 'f' :: '|' :: '>' ::
        '<' :: '|' :: 'd' :: 'e' :: 't' :: '|' :: '>' :: (c ++ detClose)) :=
    stripGround_cons_keep k1
  rw [h2]
  have h3 : stripGround ('|' :: '/' :: 'r' :: 'e' :: 'f' :: '|' :: '>' ::
      '<' :: '|' :: 'd' :: 'e' :: 't' :: '|' :: '>' :: (c ++ detClose)) =
      ['|', '/', 'r', 'e', 'f', '|', '>'] ++
        stripGround ('<' :: '|' :: 'd' :: 'e' :: 't' :: '|' :: '>' :: (c ++ detClose)) :=
    stripGround_append_safe ['|', '/', 'r', 'e', 'f', '|', '>'] (by decide) _
  rw [h3]
  have k2 : groundingTag.isPrefixOf
      ('<' :: '|' :: 'd' :: 'e' :: 't' :: '|' :: '>' :: (c ++ detClose)) = false := rfl
  rw [stripGround_cons_keep k2]
  have h4 : stripGround ('|' :: 'd' :: 'e' :: 't' :: '|' :: '>' :: (c ++ detClose)) =
      ['|', 'd', 'e', 't', '|', '>'] ++ stripGround (c ++ detClose) :=
    stripGround_append_safe ['|', 'd', 'e', 't', '|', '>'] (by decide) _
  rw [h4, stripGround_append_safe c (fun x hx h => hc1 (h ▸ hx)) _]
  have h5 : stripGround detClose = detClose := by decide
  rw [h5]
  simp [mkSpan, refOpen, refCloseDet, detClose, List.append_assoc]

/-! ### Round-trip over well-formed spans -/

theorem dropWhile_eq_self_of_head {p : Char → Bool} {s : Str}
    (h : ∀ x, s.head? = some x → p x = false) : s.dropWhile p = s := by
  cases s with
  | nil => rfl
  | cons a t =>
    rw [List.dropWhile_cons, if_neg]
    rw [h a rfl]
    exact Bool.false_ne_true

theorem pyStrip_eq_self {s : Str}
    (h1 : ∀ x, s.head? = some x → pyWS x = false)
    (h2 : ∀ x, s.getLast? = some x → pyWS x = false) : pyStrip s = s := by
  rw [pyStrip, dropWhile_eq_self_of_head h1, dropWhile_eq_self_of_head
    (fun x hx => h2 x (by rwa [List.head?_reverse] at hx)), List.reverse_reverse]

theorem stripGround_id_safe (s : Str) (h : '<' ∉ s) : stripGround s = s := by
  have hh := stripGround_append_safe s (fun x hx hq => h (hq ▸ hx)) []
  simpa [show stripGround ([] : Str) = [] from rfl] using hh

theorem findSpans_spansText (items : List SpanItem)
    (h : ∀ it ∈ items, NiceItem it) :
    findSpans (spansText items) = items.map (fun it => (it.label, it.coords)) := by
  induction items with
  | nil => rfl
  | cons it its ih =>
    have hn := h it (by simp)
    have hsh : spansText (it :: its) = mkSpan it.label it.coords ++ spansText its := by
      simp [spansText]
    rw [hsh, findSpans_span it.label hn.1.1 hn.1.2.1 it.coords hn.2.1.1
      hn.2.1.2 (spansText its), ih (fun x hx => h x (by simp [hx]))]
    rfl

theorem cleanSub_spansText (items : List SpanItem)
    (h : ∀ it ∈ items, NiceItem it) :
    cleanSub (spansText items) = labelsText items := by
  induction items with
  | nil => rfl
  | cons it its ih =>
    have hn := h it (by simp)
    have hsh : spansText (it :: its) = mkSpan it.label it.coords ++ spansText its := by
      simp [spansText]
    rw [hsh, cleanSub_span it.label hn.1.1 hn.1.2.1 it.coords hn.2.1.1
      hn.2.1.2 (spansText its), ih (fun x hx => h x (by simp [hx]))]
    simp [labelsText]

theorem extract_spansText (items : List SpanItem)
    (h : ∀ it ∈ items, NiceItem it) :
    extract_bounding_boxes (spansText items) = items.map itemBox := by
  induction items with
  | nil => rfl
  | cons it its ih =>
    have hn := h it (by simp)
    have hsh : spansText (it :: its) = mkSpan it.label it.coords ++ spansText its := by
      simp [spansText]
    have ih' := ih (fun x hx => h x (by simp [hx]))
    simp only [extract_bounding_boxes] at ih' ⊢
    rw [hsh, findSpans_span it.label hn.1.1 hn.1.2.1 it.coords hn.2.1.1
      hn.2.1.2 (spansText its)]
    simp only [List.filterMap_cons, hn.2.2.1, Option.map_some']
    rw [ih']
    rfl

theorem labelsText_no_lt (items : List SpanItem)
    (h : ∀ it ∈ items, NiceItem it) : '<' ∉ labelsText items := by
  intro hmem
  rw [labelsText, List.mem_flatten] at hmem
  obtain ⟨l, hl, hcl⟩ := hmem
  rw [List.mem_map] at hl
  obtain ⟨it, hit, rfl⟩ := hl
  exact (h it hit).1.1 hcl

theorem labelsText_head_ws (items : List SpanItem)
    (h : ∀ it ∈ items, NiceItem it) :
    ∀ x, (labelsText items).head? = some x → pyWS x = false := by
  induction items with
  | nil => intro x hx; cases hx
  | cons it its ih =>
    intro x hx
    have hn := h it (by simp)
    have hsh : labelsText (it :: its) = it.label ++ labelsText its := by
      simp [labelsText]
    rw [hsh, List.head?_append] at hx
    cases hl : it.label.head? with
    | none =>
      rw [hl] at hx
      have hor : (Option.none).or ((labelsText its).head?) =
          (labelsText its).head? := rfl
      rw [hor] at hx
      exact ih (fun z hz => h z (by simp [hz])) x hx
    | some a =>
      rw [hl] at hx
      have hor : (Option.some a).or ((labelsText its).head?) = some a := rfl
      rw [hor] at hx
      have hax : a = x := Option.some.inj hx
      subst hax
      have hcond := hn.1.2.2.1
      rw [hl] at hcond
      simpa using hcond

theorem labelsText_last_ws (items : List SpanItem)
    (h : ∀ it ∈ items, NiceItem it) :
    ∀ x, (labelsText items).getLast? = some x → pyWS x = false := by
  induction items with
  | nil => intro x hx; cases hx
  | cons it its ih =>
    intro x hx
    have hn := h it (by simp)
    have hsh : labelsText (it :: its) = it.label ++ labelsText its := by
      simp [labelsText]
    rw [hsh, List.getLast?_append] at hx
    cases hgl : (labelsText its).getLast? with
    | none =>
      rw [hgl] at hx
      have hor : (Option.none).or (it.label.getLast?) = it.label.getLast? := rfl
      rw [hor] at hx
      have hcond := hn.1.2.2.2
      rw [hx] at hcond
      simpa using hcond
    | some y =>
      rw [hgl] at hx
      have hor : (Option.some y).or (it.label.getLast?) = some y := rfl
      rw [hor] at hx
      have hyx : y = x := Option.some.inj hx
      subst hyx
      exact ih (fun z hz => h z (by simp [hz])) _ hgl

theorem clean_markdown_spansText (items : List SpanItem)
    (h : ∀ it ∈ items, NiceItem it) :
    clean_markdown (spansText items) = labelsText items := by
  simp only [clean_markdown]
  rw [cleanSub_spansText items h, stripGround_id_safe _ (labelsText_no_lt items h),
    pyStrip_eq_self (labelsText_head_ws items h) (labelsText_last_ws items h)]

theorem label_decomp_labelsText {it : SpanItem} {items : List SpanItem}
    (h : it ∈ items) : ∃ u v, labelsText items = u ++ it.label ++ v := by
  induction items with
  | nil => cases h
  | cons jt its ih =>
    have hsh : labelsText (jt :: its) = jt.label ++ labelsText its := by
      simp [labelsText]
    rcases List.mem_cons.mp h with rfl | hmem
    · exact ⟨[], labelsText its, by simp [hsh]⟩
    · obtain ⟨u, v, huv⟩ := ih hmem
      exact ⟨jt.label ++ u, v, by simp [hsh, huv, List.append_assoc]⟩

theorem containsSub_label_labelsText {it : SpanItem} {items : List SpanItem}
    (h : it ∈ items) : containsSub it.label (labelsText items) = true := by
  obtain ⟨u, v, huv⟩ := label_decomp_labelsText h
  rw [huv]
  exact containsSub_of_append _ _ _

theorem containsSub_refOpen_mkSpan (l c : Str) :
    containsSub refOpen (mkSpan l c) = true := by
  have hsh : mkSpan l c = [] ++ refOpen ++ (l ++ refCloseDet ++ c ++ detClose) := by
    simp [mkSpan, List.append_assoc]
  rw [hsh]
  exact containsSub_of_append _ _ _

theorem containsSub_detOpen_mkSpan (l c : Str) :
    containsSub detOpen (mkSpan l c) = true := by
  have hsh : mkSpan l c =
      (refOpen ++ l ++ ['<', '|', '/', 'r', 'e', 'f', '|', '>']) ++ detOpen ++
        (c ++ detClose) := by
    simp [mkSpan, refOpen, refCloseDet, detOpen, detClose, List.append_assoc]
  rw [hsh]
  exact containsSub_of_append _ _ _

/-! ### Claim theorems -/

/-- C7: calling `infer` while the model handle is not Ready raises the
not-loaded error (`ModelNotLoadedError` in the spec's taxonomy), makes no
model call and creates no transient artifacts — staging never begins.
The gate at the top of `OCREngine.infer` runs before the temp file, the
scratch dir or the model invocation are ever reached. -/
theorem c7_unloaded_no_staging (env : InferEnv) (h : env.isLoaded = false) :
    (infer env).result = .error .modelNotLoaded ∧
    (infer env).modelCalled = false ∧ (infer env).stagingBegan = false ∧
    (infer env).tmpFileLeft = false ∧ (infer env).tmpDirLeft = false := by
  simp [infer, h]

/-- Witness for C7 at a concrete environment. -/
theorem c7_unloaded_no_staging_witness :
    (infer ⟨false, true, true, .text ['o', 'k'], true, true, 1⟩).result =
      .error .modelNotLoaded ∧
    (infer ⟨false, true, true, .text ['o', 'k'], true, true, 1⟩).modelCalled = false ∧
    (infer ⟨false, true, true, .text ['o', 'k'], true, true, 1⟩).stagingBegan = false ∧
    (infer ⟨false, true, true, .text ['o', 'k'], true, true, 1⟩).tmpFileLeft = false ∧
    (infer ⟨false, true, true, .text ['o', 'k'], true, true, 1⟩).tmpDirLeft = false :=
  c7_unloaded_no_staging _ rfl

/-- C6: when the model capability returns the `None` sentinel, `infer`
raises (the `RuntimeError` raised at the sentinel check is wrapped by the
outer handler into the single inference-failure error) rather than
returning a silently empty success. -/
theorem c6_none_result_fails (env : InferEnv) (h1 : env.isLoaded = true)
    (h2 : env.saveOk = true) (h3 : env.mkdtempOk = true)
    (h4 : env.reply = .noneReply) :
    (infer env).result = .error .inferenceFailed ∧
    (infer env).modelCalled = true := by
  simp [infer, h1, h2, h3, h4]

/-- Witness for C6 at a concrete environment. -/
theorem c6_none_result_fails_witness :
    (infer ⟨true, true, true, .noneReply, true, true, 1⟩).result =
      .error .inferenceFailed ∧
    (infer ⟨true, true, true, .noneReply, true, true, 1⟩).modelCalled = true :=
  c6_none_result_fails _ rfl rfl rfl rfl

/-- C1 (code bug): the cleanup contract is violated on the staging-failure
exit path.  The `delete=False` temp file is created before the protected
`try/finally` region, so when the staged-image write fails (for example
`image.save` raising on an RGBA image encoded as JPEG), `infer` propagates
the wrapped error with staging begun but the staged artifact left behind:
evaluating the model of `infer` at that failing environment shows
`stagingBegan` with `tmpFileLeft`. -/
theorem c1_staging_leak_on_save_failure :
    (infer ⟨true, false, true, .noneReply, true, true, 1⟩).stagingBegan = true ∧
    (infer ⟨true, false, true, .noneReply, true, true, 1⟩).tmpFileLeft = true ∧
    (infer ⟨true, false, true, .noneReply, true, true, 1⟩).result =
      .error .inferenceFailed ∧
    (infer ⟨true, false, true, .noneReply, true, true, 1⟩).modelCalled = false := by
  refine ⟨rfl, rfl, rfl, rfl⟩

/-- C8: `infer_batch` rejects mismatched list lengths with the
argument-mismatch error (`ValueError` in the source) before any model
invocation, and with matching lengths returns exactly one result per
input in input order — each item's own `infer` result, or the placeholder
`("", 0.0, 0)` when that item's call raised. -/
theorem c8_batch_contract (images : List InferEnv) (prompts : List Str) :
    (images.length ≠ prompts.length →
      infer_batch images prompts =
        { result := .error .argumentMismatch, callsMade := 0 }) ∧
    (images.length = prompts.length →
      (infer_batch images prompts).result = .ok (images.map batchItem) ∧
      (images.map batchItem).length = images.length ∧
      (∀ i (hi : i < images.length),
        (images.map batchItem).get ⟨i, by simpa using hi⟩ =
          batchItem (images.get ⟨i, hi⟩))) := by
  constructor
  · intro h
    simp [infer_batch, h]
  · intro h
    refine ⟨?_, by simp, ?_⟩
    · simp only [infer_batch, h]
      rw [if_neg (by omega)]
      have hmap : (images.zip prompts).map (fun ip => batchItem ip.1) =
          ((images.zip prompts).map Prod.fst).map batchItem := by
        rw [List.map_map]
        rfl
      rw [hmap, List.map_fst_zip _ _ (le_of_eq h)]
    · intro i hi
      simp [List.getElem_map]

/-- Witness for C8: three images against two prompts are rejected with no
model call, and a singleton batch returns the item's own result. -/
theorem c8_batch_contract_witness :
    infer_batch [⟨true, true, true, .noneReply, true, true, 1⟩,
        ⟨true, true, true, .noneReply, true, true, 1⟩,
        ⟨true, true, true, .noneReply, true, true, 1⟩]
      [['a'], ['b']] =
      { result := .error .argumentMismatch, callsMade := 0 } ∧
    (infer_batch [⟨true, true, true, .text ['o', 'k'], true, true, 1⟩]
      [['a']]).result =
      .ok [(['o', 'k'], 1, 0)] := by
  constructor
  · exact (c8_batch_contract _ _).1 (by decide)
  · have h := ((c8_batch_contract
      [⟨true, true, true, .text ['o', 'k'], true, true, 1⟩] [['a']]).2 rfl).1
    rw [h]
    rfl

/-- C5: `get_resolution_params` is total (a total function in this
embedding, mirroring a Python function with no raise path) and agrees on
every input with the spec-side first-keyword rule: the first keyword of
the fixed order Tiny, Small, Base, Large, Gundam occurring as a
case-sensitive substring of the label decides the tuple, and with no
match the Base tuple (1024, 1024, false) is returned. -/
theorem c5_resolution_policy (mode : Str) :
    get_resolution_params mode = resolveSpec mode := by
  unfold get_resolution_params resolveSpec mode_mapping
  cases h1 : containsSub "Tiny".data mode <;>
  cases h2 : containsSub "Small".data mode <;>
  cases h3 : containsSub "Base".data mode <;>
  cases h4 : containsSub "Large".data mode <;>
  cases h5 : containsSub "Gundam".data mode <;>
    simp [List.find?, h1, h2, h3, h4, h5]

/-- C9: `draw_bounding_boxes` on an empty box sequence returns a
pixel-for-pixel identical copy of the input (the model's `copy` preserves
the full pixel grid) and performs no drawing calls (the emitted
drawing-op list is empty).  The input image itself is never written to:
the source draws only on `image.copy()`, modelled here by the function
consuming the image immutably and returning the copy. -/
theorem c9_draw_empty_is_copy (env : DrawEnv) (image : PILImage)
    (show_text : Bool) (box_width : ℕ) :
    draw_bounding_boxes env image [] show_text box_width = (image, []) := by
  simp [draw_bounding_boxes, PILImage.copy]

/-- C2 (code bug): the source evaluates the COORDLIST with `eval` and
divides by 999.0 with no range or type validation beyond `len == 2` and
tuple unpacking — its own comment concedes a safer method is needed,
and the spec (§9) makes strict structured parsing without code
evaluation a correctness and safety requirement.  Evaluating the model
at the failing input: the integer component 1000 passes and a box with
first coordinate 1000/999 > 1 is emitted, violating the claimed
[0, 1] invariant (float components such as 0.5 likewise pass, so no
integer-only parse is enforced either). -/
theorem c2_eval_emits_out_of_range :
    extract_bounding_boxes c2RawText =
      [{ text := ['a'], bbox := ((1000 : ℚ) / 999, 0, 0, 0) }] ∧
    1 < (1000 : ℚ) / 999 := by
  constructor
  · simp only [extract_bounding_boxes]
    rw [show findSpans c2RawText = [(['a'], "[[1000,0],[0,0]]".data)] from by decide]
    simp only [List.filterMap_cons, List.filterMap_nil]
    rw [show processCoords "[[1000,0],[0,0]]".data =
      some ((1000 : ℚ), 0, 0, 0) from by decide]
    simp only [Option.map_some']
    norm_num
  · norm_num

/-- C3 (code bug): the skip-and-continue half of the claim, proved over
the modelled fragment: when one matched span's COORDLIST is a fragment
literal whose shape check fails (wrong point count, wrong arity,
non-numeric component — `coordShape` returning `none`, on which the
source either fails the length test or raises an `Exception` the
per-match handler catches), that match is skipped and scanning
continues, so one well-formed span followed by such a span yields
exactly the well-formed box.  The claim's "never raises" universal is
nonetheless false of the source: `eval` of a COORDLIST such as
`exit()` raises `SystemExit`, which `except Exception` does not catch,
aborting the whole parse — an arbitrary-code-execution path outside
this embedding, recorded as the code bug. -/
theorem c3_malformed_skipped (l1 : Str) (hl1a : '<' ∉ l1) (hl1b : '\n' ∉ l1)
    (c1 : Str) (hc1a : '<' ∉ c1) (hc1b : '\n' ∉ c1)
    (x1 y1 x2 y2 : ℚ) (hp1 : processCoords c1 = some (x1, y1, x2, y2))
    (l2 : Str) (hl2a : '<' ∉ l2) (hl2b : '\n' ∉ l2)
    (c2 : Str) (hc2a : '<' ∉ c2) (hc2b : '\n' ∉ c2)
    (v : PyVal) (hv : pyEvalLiteral (pyStrip c2) = some v)
    (hshape : coordShape v = none) :
    extract_bounding_boxes (mkSpan l1 c1 ++ mkSpan l2 c2) =
      [{ text := l1, bbox := (x1 / 999, y1 / 999, x2 / 999, y2 / 999) }] := by
  have hp2 : processCoords c2 = none := by
    unfold processCoords
    rw [hv]
    exact hshape
  simp only [extract_bounding_boxes]
  rw [findSpans_span l1 hl1a hl1b c1 hc1a hc1b (mkSpan l2 c2)]
  rw [show mkSpan l2 c2 = mkSpan l2 c2 ++ [] from (List.append_nil _).symm]
  rw [findSpans_span l2 hl2a hl2b c2 hc2a hc2b []]
  simp only [List.filterMap_cons, hp1, hp2, Option.map_some']
  rfl

/-- Witness for C3: the malformed span's coordinate list has three
points (`[[1,2],[3,4],[5,6]]`), a fragment literal failing the shape
check, and only the well-formed box is returned. -/
theorem c3_malformed_skipped_witness :
    extract_bounding_boxes
      (mkSpan "ok".data "[[1,2],[3,4]]".data ++
        mkSpan "bad".data "[[1,2],[3,4],[5,6]]".data) =
      [{ text := "ok".data
         bbox := ((1 : ℚ) / 999, (2 : ℚ) / 999,
                  (3 : ℚ) / 999, (4 : ℚ) / 999) }] := by
  have h := c3_malformed_skipped "ok".data (by decide) (by decide)
    "[[1,2],[3,4]]".data (by decide) (by decide) 1 2 3 4 (by decide)
    "bad".data (by decide) (by decide)
    "[[1,2],[3,4],[5,6]]".data (by decide) (by decide)
    (.list [.list [.num 1, .num 2], .list [.num 3, .num 4],
      .list [.num 5, .num 6]]) rfl rfl
  simpa using h

/-- C4 counterexample: a raw text consisting of one well-formed span with
the (distinct-by-vacuity) label " a" and the valid coordinate pair
[[0,0],[1,1]].  The one box is extracted, but `clean_markdown`'s final
`strip` removes the label's leading space, so its output "a" does not
contain the LABEL substring " a" — the round-trip claim fails as stated. -/
theorem c4_counterexample :
    extract_bounding_boxes c4RawText =
      [{ text := [' ', 'a'], bbox := (0, 0, (1 : ℚ) / 999, (1 : ℚ) / 999) }] ∧
    clean_markdown c4RawText = ['a'] ∧
    containsSub [' ', 'a'] (clean_markdown c4RawText) = false := by
  refine ⟨?_, by decide, by decide⟩
  simp only [extract_bounding_boxes]
  rw [show findSpans c4RawText = [([' ', 'a'], "[[0,0],[1,1]]".data)] from by decide]
  simp only [List.filterMap_cons, List.filterMap_nil]
  rw [show processCoords "[[0,0],[1,1]]".data = some (0, 0, 1, 1) from by decide]
  simp only [Option.map_some']
  norm_num

/-- C4 (amended): for raw text consisting of N well-formed spans with
distinct labels and valid two-point integer coordinate pairs, whose
labels neither start nor end with Python whitespace (the set
`str.strip()` removes — the final `strip` of `clean_markdown` otherwise
eats into an edge label, as the counterexample shows),
`extract_bounding_boxes` returns exactly the N boxes in source order
with each coordinate divided by 999.0, and `clean_markdown` replaces
each span by its LABEL, strips grounding tags and trims, so its output
is the concatenation of labels: it contains every LABEL substring and
none of the four markup tag literals. -/
theorem c4_roundtrip (items : List SpanItem) (h : ∀ it ∈ items, NiceItem it)
    (_hdist : items.Pairwise (fun a b => a.label ≠ b.label)) :
    extract_bounding_boxes (spansText items) = items.map itemBox ∧
    clean_markdown (spansText items) = labelsText items ∧
    (∀ it ∈ items,
      containsSub it.label (clean_markdown (spansText items)) = true) ∧
    containsSub refOpen (clean_markdown (spansText items)) = false ∧
    containsSub ['<', '|', '/', 'r', 'e', 'f', '|', '>']
      (clean_markdown (spansText items)) = false ∧
    containsSub detOpen (clean_markdown (spansText items)) = false ∧
    containsSub detClose (clean_markdown (spansText items)) = false := by
  have hclean := clean_markdown_spansText items h
  have hnolt := labelsText_no_lt items h
  refine ⟨extract_spansText items h, hclean, ?_, ?_, ?_, ?_, ?_⟩
  · intro it hit
    rw [hclean]
    exact containsSub_label_labelsText hit
  · rw [hclean]
    exact containsSub_false_of_not_mem (by decide : '<' ∈ refOpen) hnolt
  · rw [hclean]
    exact containsSub_false_of_not_mem
      (by decide : '<' ∈ ['<', '|', '/', 'r', 'e', 'f', '|', '>']) hnolt
  · rw [hclean]
    exact containsSub_false_of_not_mem (by decide : '<' ∈ detOpen) hnolt
  · rw [hclean]
    exact containsSub_false_of_not_mem (by decide : '<' ∈ detClose) hnolt

/-- Witness for the amended C4 on two concrete spans. -/
theorem c4_roundtrip_witness :
    extract_bounding_boxes (spansText
      [⟨"title".data, "[[100,50],[300,100]]".data, 100, 50, 300, 100⟩,
       ⟨"t2".data, "[[1,2],[3,4]]".data, 1, 2, 3, 4⟩]) =
      [⟨"title".data, "[[100,50],[300,100]]".data, 100, 50, 300, 100⟩,
       ⟨"t2".data, "[[1,2],[3,4]]".data, 1, 2, 3, 4⟩].map itemBox ∧
    clean_markdown (spansText
      [⟨"title".data, "[[100,50],[300,100]]".data, 100, 50, 300, 100⟩,
       ⟨"t2".data, "[[1,2],[3,4]]".data, 1, 2, 3, 4⟩]) =
      labelsText
      [⟨"title".data, "[[100,50],[300,100]]".data, 100, 50, 300, 100⟩,
       ⟨"t2".data, "[[1,2],[3,4]]".data, 1, 2, 3, 4⟩] := by
  have h := c4_roundtrip
    [⟨"title".data, "[[100,50],[300,100]]".data, 100, 50, 300, 100⟩,
     ⟨"t2".data, "[[1,2],[3,4]]".data, 1, 2, 3, 4⟩]
    (by decide) (by decide)
  exact ⟨h.1, h.2.1⟩

/-- C10 (implicit): the `.` of the span regex does not match newlines, so
a span whose LABEL or COORDLIST contains a newline never matches:
`extract_bounding_boxes` emits no box for it, `clean_markdown` leaves the
span's text — its ref/det tag literals included — unchanged apart from
the whitespace trim, and `parse_result` still reports
`has_grounding = true` because the tag literals are present.  Stated for
labels and coordinate captures free of the tag character `<` (the
well-formed-span shape). -/
theorem c10_newline_breaks_span (l c : Str) (hl : '<' ∉ l) (hc : '<' ∉ c)
    (hnl : '\n' ∈ l ∨ '\n' ∈ c) :
    extract_bounding_boxes (mkSpan l c) = [] ∧
    clean_markdown (mkSpan l c) = pyStrip (mkSpan l c) ∧
    (parse_result (mkSpan l c)).has_grounding = true := by
  have hnl' : '\n' ∈ l ∨ ('\n' ∉ l ∧ '\n' ∈ c) := by
    by_cases hmem : '\n' ∈ l
    · exact Or.inl hmem
    · rcases hnl with h | h
      · exact absurd h hmem
      · exact Or.inr ⟨hmem, h⟩
  refine ⟨?_, ?_, ?_⟩
  · simp only [extract_bounding_boxes]
    rw [findSpans_broken_span l c hl hc hnl']
    rfl
  · simp only [clean_markdown]
    rw [cleanSub_broken_span l c hl hc hnl', stripGround_span_id l c hl hc]
  · simp only [parse_result]
    rw [containsSub_refOpen_mkSpan, containsSub_detOpen_mkSpan]
    rfl

/-- Witness for C10: a span whose label "a\nb" spans a line break. -/
theorem c10_newline_breaks_span_witness :
    extract_bounding_boxes (mkSpan ['a', '\n', 'b'] "[[1,2],[3,4]]".data) = [] ∧
    clean_markdown (mkSpan ['a', '\n', 'b'] "[[1,2],[3,4]]".data) =
      pyStrip (mkSpan ['a', '\n', 'b'] "[[1,2],[3,4]]".data) ∧
    (parse_result (mkSpan ['a', '\n', 'b'] "[[1,2],[3,4]]".data)).has_grounding =
      true :=
  c10_newline_breaks_span ['a', '\n', 'b'] "[[1,2],[3,4]]".data
    (by decide) (by decide) (Or.inl (by decide))
